import Mathlib

/-!
# Verification development for `Application.cpp` (CS330 Module 6 Milestone)

The program is a single translation unit whose behaviour lives in a handful of
callbacks acting on namespace-scope globals.  The embedding below threads those
globals through an explicit `AppState` record:

* `UProcessInput`         keyboard polling, once per frame   (source lines 323-389)
* `UMouseScrollCallback`  scroll wheel                       (source lines 392-406)
* `mouse_callback`        cursor motion                      (source lines 744-776)
* `UCreateTexture`        texture creation                   (source lines 778-822)
* `flipImageVertically`   in-place row reversal              (source lines 829-845)
* `UCreateMesh`           vertex data                        (source lines 512-643)
* `URender`               per-frame draw                     (source lines 415-509)

Scalars (`float`/`double` in the source) are taken in an ordered field `α`, so
that arithmetic is exact; `2.5f`, `0.1f`, `0.01` are the rationals `5/2`,
`1/10`, `1/100`.  The `<cmath>` primitives `cos`, `sin`, `sqrt` and the
constant `π` are passed in as a record `CMath α`; `realMath` instantiates them
with the real functions.  Console output (`cout << ...`) is not modelled.

Where rounding decides a branch, namely in the guard `scrollSpeed > 0.01` of
`UMouseScrollCallback` under repeated scrolling, the `float` and `double`
arithmetic is followed bit for bit by `UMouseScrollCallback_float`.
-/

namespace OpenGLProject

/-! ## Vectors (`glm::vec3`) -/

/-- A `glm::vec3` with components in `α`. -/
structure Vec3 (α : Type) where
  x : α
  y : α
  z : α
deriving DecidableEq

namespace Vec3

variable {α : Type} [LinearOrderedField α]

/-- Component-wise sum, `a + b`. -/
def add (a b : Vec3 α) : Vec3 α := ⟨a.x + b.x, a.y + b.y, a.z + b.z⟩

/-- Component-wise difference, `a - b`. -/
def sub (a b : Vec3 α) : Vec3 α := ⟨a.x - b.x, a.y - b.y, a.z - b.z⟩

/-- Scalar multiple, `k * v` (and `v * k`). -/
def smul (k : α) (v : Vec3 α) : Vec3 α := ⟨k * v.x, k * v.y, k * v.z⟩

/-- Inner product, `glm::dot`. -/
def dot (a b : Vec3 α) : α := a.x * b.x + a.y * b.y + a.z * b.z

/-- Vector product, `glm::cross`. -/
def cross (a b : Vec3 α) : Vec3 α :=
  ⟨a.y * b.z - b.y * a.z, a.z * b.x - b.z * a.x, a.x * b.y - b.x * a.y⟩

end Vec3

/-- The `<cmath>` primitives used by the program, over the scalar type `α`. -/
structure CMath (α : Type) where
  cos : α → α
  sin : α → α
  sqrt : α → α
  pi : α

/-- The primitives over the real numbers. -/
noncomputable def realMath : CMath ℝ := ⟨Real.cos, Real.sin, Real.sqrt, Real.pi⟩

section Glm

variable {α : Type} [LinearOrderedField α]

/-- Degrees to radians, `glm::radians`. -/
def radians (m : CMath α) (degrees : α) : α := degrees * (m.pi / 180)

/-- Euclidean length, `glm::length`: `sqrt(dot(v, v))`. -/
def length (m : CMath α) (v : Vec3 α) : α := m.sqrt (Vec3.dot v v)

/-- Unit vector in the direction of `v`, `glm::normalize`:
`v * inversesqrt(dot(v, v))`. -/
def normalize (m : CMath α) (v : Vec3 α) : Vec3 α :=
  Vec3.smul (1 / m.sqrt (Vec3.dot v v)) v

end Glm

/-! ## Program state -/

/-- The namespace-scope globals of `Application.cpp` (lines 70-98) that the
input callbacks read or write, plus the window's close flag. -/
structure AppState (α : Type) where
  cameraPos : Vec3 α
  cameraFront : Vec3 α
  cameraUp : Vec3 α
  lastX : α
  lastY : α
  yaw : α
  pitch : α
  firstMouse : Bool
  sensitivity : α
  scrollSpeed : α
  perspective : Bool
  lastFrameCheck : Bool
  lX : α
  lY : α
  lZ : α
  windowShouldClose : Bool

/-- The keys polled by `UProcessInput`; `true` means `glfwGetKey` reports
`GLFW_PRESS` for that key in this frame. -/
structure Keys where
  escape : Bool
  w : Bool
  s : Bool
  d : Bool
  a : Bool
  q : Bool
  e : Bool
  left : Bool
  right : Bool
  up : Bool
  down : Bool
  rightShift : Bool
  rightControl : Bool
  p : Bool
deriving DecidableEq

/-- No key pressed. -/
def Keys.none : Keys :=
  ⟨false, false, false, false, false, false, false, false, false, false, false, false,
    false, false⟩

section Callbacks

variable {α : Type} [LinearOrderedField α]

/-- The initial values of the globals (lines 71-98). -/
def startup : AppState α where
  cameraPos := ⟨0, 0, 1⟩
  cameraFront := ⟨0, 0, 1⟩
  cameraUp := ⟨0, 1, 0⟩
  lastX := 400
  lastY := 300
  yaw := 0
  pitch := 0
  firstMouse := true
  sensitivity := 1 / 10
  scrollSpeed := 1 / 10
  perspective := true
  lastFrameCheck := false
  lX := 1 / 10
  lY := 4 / 100
  lZ := 35 / 10
  windowShouldClose := false

/-- One call of `UProcessInput` (lines 323-389) with the keyboard in state `keys`. -/
def UProcessInput (m : CMath α) (keys : Keys) (st : AppState α) : AppState α :=
  let st := if keys.escape then { st with windowShouldClose := true } else st
  let cameraSpeed : α := 5 / 2 * st.scrollSpeed
  let st := if keys.w then
      { st with cameraPos := Vec3.add st.cameraPos (Vec3.smul cameraSpeed st.cameraFront) }
    else st
  let st := if keys.s then
      { st with cameraPos := Vec3.sub st.cameraPos (Vec3.smul cameraSpeed st.cameraFront) }
    else st
  let st := if keys.d then
      { st with
        cameraPos := Vec3.add st.cameraPos
          (Vec3.smul cameraSpeed (normalize m (Vec3.cross st.cameraFront st.cameraUp))) }
    else st
  let st := if keys.a then
      { st with
        cameraPos := Vec3.sub st.cameraPos
          (Vec3.smul cameraSpeed (normalize m (Vec3.cross st.cameraFront st.cameraUp))) }
    else st
  let st := if keys.q then
      { st with cameraPos := Vec3.sub st.cameraPos (Vec3.smul cameraSpeed st.cameraUp) }
    else st
  let st := if keys.e then
      { st with cameraPos := Vec3.add st.cameraPos (Vec3.smul cameraSpeed st.cameraUp) }
    else st
  let st := if keys.left then { st with lX := st.lX - 1 / 100 } else st
  let st := if keys.right then { st with lX := st.lX + 1 / 100 } else st
  let st := if keys.up then { st with lY := st.lY + 1 / 100 } else st
  let st := if keys.down then { st with lY := st.lY - 1 / 100 } else st
  let st := if keys.rightShift then { st with lZ := st.lZ + 1 / 100 } else st
  let st := if keys.rightControl then { st with lZ := st.lZ - 1 / 100 } else st
  if keys.p then
    if !st.lastFrameCheck then
      { st with perspective := !st.perspective, lastFrameCheck := true }
    else
      { st with lastFrameCheck := false }
  else st

/-- The state after `n` consecutive frames in which the keyboard is in state
`keys` in every frame (the render loop calls `UProcessInput` once per frame). -/
def runFrames (m : CMath α) (keys : Keys) : Nat → AppState α → AppState α
  | 0, st => st
  | n + 1, st => runFrames m keys n (UProcessInput m keys st)

/-- One call of `UMouseScrollCallback` (lines 392-406). -/
def UMouseScrollCallback (_xoffset yoffset : α) (st : AppState α) : AppState α :=
  if yoffset > 0 then
    { st with scrollSpeed := st.scrollSpeed + 1 / 100 }
  else
    if st.scrollSpeed > 1 / 100 then
      { st with scrollSpeed := st.scrollSpeed - 1 / 100 }
    else st

/-- The vector `direction` that `mouse_callback` builds from the yaw and pitch
angles, in degrees (lines 771-774). -/
def frontDirection (m : CMath α) (yaw pitch : α) : Vec3 α :=
  ⟨m.cos (radians m yaw) * m.cos (radians m pitch),
   m.sin (radians m pitch),
   m.sin (radians m yaw) * m.cos (radians m pitch)⟩

/-- One call of `mouse_callback` (lines 744-776) with the cursor at `(xpos, ypos)`. -/
def mouse_callback (m : CMath α) (xpos ypos : α) (st : AppState α) : AppState α :=
  let st := if st.firstMouse then
      { st with lastX := xpos, lastY := ypos, firstMouse := false }
    else st
  let xoffset : α := xpos - st.lastX
  let yoffset : α := st.lastY - ypos
  let st := { st with lastX := xpos, lastY := ypos }
  let xoffset := xoffset * st.sensitivity
  let yoffset := yoffset * st.sensitivity
  let st := { st with yaw := st.yaw + xoffset, pitch := st.pitch + yoffset }
  let st := if st.pitch > 89 then { st with pitch := 89 } else st
  let st := if st.pitch < -89 then { st with pitch := -89 } else st
  let direction : Vec3 α := frontDirection m st.yaw st.pitch
  { st with cameraFront := normalize m direction }

end Callbacks

/-! ## Scroll wheel in `float` arithmetic

`scrollSpeed` is a `float` and the literal `0.01` is a `double`, so
`scrollSpeed += 0.01` is `(float)((double)scrollSpeed + 0.01)` and the guard
`scrollSpeed > 0.01` compares in `double`.  The definitions below follow this
with IEEE 754 round-to-nearest-even.  Every quantity involved is a
non-negative multiple of `2^(-59)`, the spacing of the `double`s around
`0.01`, and is held as that multiple; no value met here is small or large
enough to be subnormal or to overflow. -/

/-- The number of halvings that bring `x` below `2 ^ p`: the count of low bits
of `x` that do not fit a `p`-bit significand.  The first argument bounds the
number of steps; `x` itself is enough. -/
def excessBits (p : Nat) : Nat → Nat → Nat
  | 0, _ => 0
  | fuel + 1, x => if x < 2 ^ p then 0 else excessBits p fuel (x / 2) + 1

/-- The multiple `x` rounded to a `p`-bit significand, to nearest, ties to
even: the conversion to a binary floating-point format with precision `p`. -/
def roundBits (p x : Nat) : Nat :=
  let shift := excessBits p x x
  if shift = 0 then x
  else
    let q := x / 2 ^ shift
    let r := x % 2 ^ shift
    let half := 2 ^ (shift - 1)
    let q := if r > half ∨ (r = half ∧ q % 2 = 1) then q + 1 else q
    q * 2 ^ shift

/-- The `double` literal `0.01` (bit pattern `0x3F847AE147AE147B`). -/
def double_0_01 : Nat := 5764607523034235

/-- The `float` literal `0.1f` (bit pattern `0x3DCCCCCD`), the startup value of
`scrollSpeed` (line 86). -/
def float_0_1 : Nat := 13421773 * 2 ^ 32

/-- The `float` nearest to `0.11` (bit pattern `0x3DE147AE`). -/
def float_0_11 : Nat := 14763950 * 2 ^ 32

/-- An `unsigned char`. -/
abbrev Byte := Fin 256

/-- The three statements that exchange `image[index1]` and `image[index2]`
(lines 838-840).  A read outside the buffer yields `0` and a write outside it
is dropped; neither occurs when the buffer holds `width * height * channels`
bytes. -/
def swapBytes (image : List Byte) (index1 index2 : Nat) : List Byte :=
  let tmp := image.getD index1 0
  let image := image.set index1 (image.getD index2 0)
  image.set index2 tmp

/-- The inner loop of `flipImageVertically` (lines 836-843) with `i` iterations
left: `for (i = width * channels; i > 0; --i)`. -/
def flipRow : Nat → Nat → Nat → List Byte → List Byte
  | 0, _, _, image => image
  | i + 1, index1, index2, image =>
    flipRow i (index1 + 1) (index2 + 1) (swapBytes image index1 index2)

/-- The outer loop of `flipImageVertically` (lines 831-844) at row counter `j`
with `n` iterations left. -/
def flipRows (width height channels : Nat) : Nat → Nat → List Byte → List Byte
  | 0, _, image => image
  | n + 1, j, image =>
    let index1 := j * width * channels
    let index2 := (height - 1 - j) * width * channels
    flipRows width height channels n (j + 1) (flipRow (width * channels) index1 index2 image)

/-- The function `flipImageVertically` (lines 829-845): the outer loop runs for
`j = 0, ..., height / 2 - 1`.  The `int` dimensions are taken non-negative. -/
def flipImageVertically (image : List Byte) (width height channels : Nat) : List Byte :=
  flipRows width height channels (height / 2) 0 image

/-- The pixel layouts `UCreateTexture` can hand to `glTexImage2D`. -/
inductive PixelFormat where
  | RGB
  | RGBA
deriving DecidableEq

/-- What `stbi_load` yields when it succeeds. -/
structure DecodedImage where
  pixels : List Byte
  width : Nat
  height : Nat
  channels : Nat

/-- One `glTexImage2D` call: the texture bound to `GL_TEXTURE_2D` at the time
and the data handed over. -/
structure TexUpload where
  texture : Nat
  format : PixelFormat
  width : Nat
  height : Nat
  pixels : List Byte
deriving DecidableEq

/-- The part of the OpenGL context that `UCreateTexture` touches: the texture
bound to `GL_TEXTURE_2D` (`0` when none is), the `glTexImage2D` calls made and
the textures that had mipmaps generated.  The `glTexParameteri` calls set
wrapping and filtering only and are left out. -/
structure GLState where
  boundTexture2D : Nat
  uploads : List TexUpload
  mipmapped : List Nat
deriving DecidableEq

/-- The outcome of one `UCreateTexture` call: the returned `bool`, the caller's
`textureId` (passed by reference), the OpenGL context, and whether the decoded
image was released with `stbi_image_free`. -/
structure TextureResult where
  ok : Bool
  textureId : Nat
  gl : GLState
  imageFreed : Bool
deriving DecidableEq

/-- One call of `UCreateTexture` (lines 778-822).  `decoded` is the result of
`stbi_load` (`none` for a null pointer), `fresh` the name `glGenTextures`
hands out, `textureId` the caller's handle before the call. -/
def UCreateTexture (decoded : Option DecodedImage) (fresh : Nat) (textureId : Nat)
    (gl : GLState) : TextureResult :=
  match decoded with
  | some image =>
    let pixels := flipImageVertically image.pixels image.width image.height image.channels
    let textureId := fresh
    let gl := { gl with boundTexture2D := textureId }
    if image.channels = 3 then
      let gl := { gl with
        uploads := gl.uploads ++ [TexUpload.mk gl.boundTexture2D .RGB image.width image.height pixels] }
      let gl := { gl with mipmapped := gl.mipmapped ++ [gl.boundTexture2D] }
      let gl := { gl with boundTexture2D := 0 }
      ⟨true, textureId, gl, true⟩
    else if image.channels = 4 then
      let gl := { gl with
        uploads := gl.uploads ++ [TexUpload.mk gl.boundTexture2D .RGBA image.width image.height pixels] }
      let gl := { gl with mipmapped := gl.mipmapped ++ [gl.boundTexture2D] }
      let gl := { gl with boundTexture2D := 0 }
      ⟨true, textureId, gl, true⟩
    else
      ⟨false, textureId, gl, false⟩
  | none => ⟨false, textureId, gl, false⟩

/-! ## Mesh and rendering -/

/-- The rows of `verts` for the table top (lines 516-522): eight floats per vertex
(position, normal, texture coordinate). -/
def tabletopVerts : List ℚ :=
  [ -1.0, -1.0, 0.0, 0.0, 0.0, 1.0, 0.0, 0.0,
    -1.0, 1.0, 0.0, 0.0, 0.0, 1.0, 0.0, 1.0,
    1.0, 1.0, 0.0, 0.0, 0.0, 1.0, 1.0, 1.0,
    1.0, 1.0, 0.0, 0.0, 0.0, 1.0, 1.0, 1.0,
    1.0, -1.0, 0.0, 0.0, 0.0, 1.0, 1.0, 0.0,
    -1.0, -1.0, 0.0, 0.0, 0.0, 1.0, 0.0, 0.0 ]

/-- The rows of `verts` for the book (lines 524-562): eight floats per vertex
(position, normal, texture coordinate). -/
def bookVerts : List ℚ :=
    -- Front Face
  [ -1.0, -1.0, 0.1, 0.0, 0.0, 1.0, 0.15, 0.5,
    -1.0, 0.0, 0.1, 0.0, 0.0, 1.0, 0.15, 0.94,
    -0.5, 0.0, 0.1, 0.0, 0.0, 1.0, 0.83, 0.94,
    -0.5, 0.0, 0.1, 0.0, 0.0, 1.0, 0.83, 0.94,
    -0.5, -1.0, 0.1, 0.0, 0.0, 1.0, 0.83, 0.5,
    -1.0, -1.0, 0.1, 0.0, 0.0, 1.0, 0.15, 0.5,
    -- Back Face
    -1.0, -1.0, 0.001, 0.0, 0.0, -1.0, 0.15, 0.0,
    -1.0, 0.0, 0.001, 0.0, 0.0, -1.0, 0.15, 0.44,
    -0.5, 0.0, 0.001, 0.0, 0.0, -1.0, 0.83, 0.44,
    -0.5, 0.0, 0.001, 0.0, 0.0, -1.0, 0.83, 0.44,
    -0.5, -1.0, 0.001, 0.0, 0.0, -1.0, 0.83, 0.0,
    -1.0, -1.0, 0.001, 0.0, 0.0, -1.0, 0.15, 0.0,
    -- Left Face
    -1.0, -1.0, 0.1, -1.0, 0.0, 0.0, 0.15, 0.5,
    -1.0, 0.0, 0.1, -1.0, 0.0, 0.0, 0.15, 0.94,
    -1.0, 0.0, 0.001, -1.0, 0.0, 0.0, 0.0, 0.94,
    -1.0, 0.0, 0.001, -1.0, 0.0, 0.0, 0.0, 0.94,
    -1.0, -1.0, 0.001, -1.0, 0.0, 0.0, 0.0, 0.5,
    -1.0, -1.0, 0.1, -1.0, 0.0, 0.0, 0.15, 0.5,
    -- Right Face
    -0.5, -1.0, 0.1, 1.0, 0.0, 0.0, 1.0, 0.5,
    -0.5, 0.0, 0.1, 1.0, 0.0, 0.0, 1.0, 0.94,
    -0.5, 0.0, 0.001, 1.0, 0.0, 0.0, 0.83, 0.94,
    -0.5, 0.0, 0.001, 1.0, 0.0, 0.0, 0.83, 0.94,
    -0.5, -1.0, 0.001, 1.0, 0.0, 0.0, 0.83, 0.5,
    -0.5, -1.0, 0.1, 1.0, 0.0, 0.0, 1.0, 0.5,
    -- Top Face
    -1.0, 0.0, 0.1, 0.0, 1.0, 0.0, 0.15, 0.94,
    -1.0, 0.0, 0.001, 0.0, 1.0, 0.0, 0.15, 1.0,
    -0.5, 0.0, 0.001, 0.0, 1.0, 0.0, 0.83, 1.0,
    -0.5, 0.0, 0.001, 0.0, 1.0, 0.0, 0.83, 1.0,
    -0.5, 0.0, 0.1, 0.0, 1.0, 0.0, 0.83, 0.94,
    -1.0, 0.0, 0.1, 0.0, 1.0, 0.0, 0.15, 0.94,
    -- Bottom Face
    -1.0, -1.0, 0.1, 0.0, -1.0, 0.0, 0.15, 0.5,
    -1.0, -1.0, 0.001, 0.0, -1.0, 0.0, 0.15, 0.44,
    -0.5, -1.0, 0.001, 0.0, -1.0, 0.0, 0.83, 0.44,
    -0.5, -1.0, 0.001, 0.0, -1.0, 0.0, 0.83, 0.44,
    -0.5, -1.0, 0.1, 0.0, -1.0, 0.0, 0.83, 0.5,
    -1.0, -1.0, 0.1, 0.0, -1.0, 0.0, 0.15, 0.5 ]

/-- The rows of `verts` for the cube (lines 564-610): eight floats per vertex
(position, normal, texture coordinate). -/
def cubeVerts : List ℚ :=
    -- Front Face
  [ -0.75, -0.25, 0.351, 0.0, 0.0, 1.0, 0.34, 0.5,
    -0.75, 0.0, 0.351, 0.0, 0.0, 1.0, 0.34, 0.75,
    -0.5, 0.0, 0.351, 0.0, 0.0, 1.0, 0.66, 0.75,
    -0.5, 0.0, 0.351, 0.0, 0.0, 1.0, 0.66, 0.75,
    -0.5, -0.25, 0.351, 0.0, 0.0, 1.0, 0.66, 0.5,
    -0.75, -0.25, 0.351, 0.0, 0.0, 1.0, 0.34, 0.5,
    -- Back Face
    -0.75, -0.25, 0.101, 0.0, 0.0, -1.0, 0.34, 0.0,
    -0.75, 0.0, 0.101, 0.0, 0.0, -1.0, 0.34, 0.25,
    -0.5, 0.0, 0.101, 0.0, 0.0, -1.0, 0.665, 0.25,
    -0.5, 0.0, 0.101, 0.0, 0.0, -1.0, 0.665, 0.25,
    -0.5, -0.25, 0.101, 0.0, 0.0, -1.0, 0.665, 0.0,
    -0.75, -0.25, 0.101, 0.0, 0.0, -1.0, 0.34, 0.0,
    -- Left Face
    -0.75, -0.25, 0.351, -1.0, 0.0, 0.0, 0.33, 0.5,
    -0.75, 0.0, 0.351, -1.0, 0.0, 0.0, 0.33, 0.75,
    -0.75, 0.0, 0.101, -1.0, 0.0, 0.0, 0.0, 0.75,
    -0.75, 0.0, 0.101, -1.0, 0.0, 0.0, 0.0, 0.75,
    -0.75, -0.25, 0.101, -1.0, 0.0, 0.0, 0.0, 0.5,
    -0.75, -0.25, 0.351, -1.0, 0.0, 0.0, 0.33, 0.5,
    -- Right Face
    -0.5, -0.25, 0.351, 1.0, 0.0, 0.0, 0.66, 0.5,
    -0.5, 0.0, 0.351, 1.0, 0.0, 0.0, 0.66, 0.75,
    -0.5, 0.0, 0.101, 1.0, 0.0, 0.0, 1.0, 0.75,
    -0.5, 0.0, 0.101, 1.0, 0.0, 0.0, 1.0, 0.75,
    -0.5, -0.25, 0.101, 1.0, 0.0, 0.0, 1.0, 0.5,
    -0.5, -0.25, 0.351, 1.0, 0.0, 0.0, 0.66, 0.5,
    -- Top Face
    -0.75, 0.0, 0.351, 0.0, 1.0, 0.0, 0.34, 0.75,
    -0.75, 0.0, 0.101, 0.0, 1.0, 0.0, 0.34, 1.0,
    -0.5, 0.0, 0.101, 0.0, 1.0, 0.0, 0.665, 1.0,
    -0.5, 0.0, 0.101, 0.0, 1.0, 0.0, 0.665, 1.0,
    -0.5, 0.0, 0.351, 0.0, 1.0, 0.0, 0.665, 0.75,
    -0.75, 0.0, 0.351, 0.0, 1.0, 0.0, 0.34, 0.75,
    -- Bottom Face
    -0.75, -0.25, 0.351, 0.0, -1.0, 0.0, 0.34, 0.5,
    -0.75, -0.25, 0.101, 0.0, -1.0, 0.0, 0.34, 0.25,
    -0.5, -0.25, 0.101, 0.0, -1.0, 0.0, 0.665, 0.25,
    -0.5, -0.25, 0.101, 0.0, -1.0, 0.0, 0.665, 0.25,
    -0.5, -0.25, 0.351, 0.0, -1.0, 0.0, 0.665, 0.5,
    -0.75, -0.25, 0.351, 0.0, -1.0, 0.0, 0.34, 0.5 ]

/-- What `UCreateMesh` leaves behind for `URender`: the float data sent to the
vertex buffer, the number of floats per vertex (the stride of the attribute
pointers, in floats) and the field `nIndices`. -/
structure GLMesh where
  vbo : List ℚ
  floatsPerStride : Nat
  nIndices : Nat

/-- The array `verts` (lines 515-611): table top, then book, then cube. -/
def verts : List ℚ := tabletopVerts ++ bookVerts ++ cubeVerts

/-- The mesh part of `UCreateMesh` (lines 512-643): the whole of `verts` goes
to the buffer, a vertex is `3 + 3 + 2` floats, and `nIndices` is set to `0`.
The texture loading that follows (lines 645-668) is `UCreateTexture`. -/
def UCreateMesh : GLMesh :=
  let floatsPerVertex := 3
  let floatsPerNormal := 3
  let floatsPerUV := 2
  { vbo := verts
    floatsPerStride := floatsPerVertex + floatsPerNormal + floatsPerUV
    nIndices := 0 }

/-- The number of vertices held by the buffer of a mesh. -/
def GLMesh.vertexCount (mesh : GLMesh) : Nat := mesh.vbo.length / mesh.floatsPerStride

/-- Window width (line 50). -/
def WINDOW_WIDTH : Int := 800

/-- Window height (line 51). -/
def WINDOW_HEIGHT : Int := 600

/-- The arguments of the call that builds the projection matrix:
`glm::perspective(fovy, aspect, zNear, zFar)` or
`glm::ortho(left, right, bottom, top, zNear, zFar)`. -/
inductive Projection (α : Type) where
  | perspective (fovy aspect zNear zFar : α)
  | ortho (left right bottom top zNear zFar : α)
deriving DecidableEq

/-- One `glDrawArrays(GL_TRIANGLES, first, count)` call, with the texture unit
the sampler `uTexture` was set to just before it. -/
structure DrawCall where
  uTexture : Nat
  first : Nat
  count : Nat
deriving DecidableEq

/-- What one `URender` call hands to OpenGL: the light position, the projection
arguments, the three arguments of `glm::lookAt`, the `viewPosition` uniform and
the draw calls in the order they are issued.  The model matrix and the
light colour and attenuation uniforms are constants and are left out. -/
structure Frame (α : Type) where
  lightPos : Vec3 α
  projection : Projection α
  eye : Vec3 α
  center : Vec3 α
  up : Vec3 α
  viewPosition : Vec3 α
  draws : List DrawCall

/-- The built-in comma operator of C++: the left operand is evaluated and
discarded, the value is the right operand. -/
def commaOp {β γ : Type} (_left : β) (right : γ) : γ := right

section Render

variable {α : Type} [LinearOrderedField α]

/-- One call of `URender` (lines 415-509).  `WINDOW_WIDTH / WINDOW_HEIGHT` is a
division of two `int`s, converted to `GLfloat` afterwards. -/
def URender (mesh : GLMesh) (st : AppState α) : Frame α :=
  let gLightPosition : Vec3 α := ⟨st.lX, st.lY, st.lZ⟩
  let projection : Projection α :=
    if st.perspective then
      Projection.perspective 1 ((Int.tdiv WINDOW_WIDTH WINDOW_HEIGHT : Int) : α) (1 / 10) 100
    else
      Projection.ortho 0 5 0 5 (1 / 10) 100
  let cameraPosition : Vec3 α :=
    commaOp (commaOp st.cameraPos (Vec3.add st.cameraPos st.cameraFront)) st.cameraUp
  { lightPos := gLightPosition
    projection := projection
    eye := st.cameraPos
    center := Vec3.add st.cameraPos st.cameraFront
    up := st.cameraUp
    viewPosition := cameraPosition
    draws := [⟨0, 0, mesh.nIndices + 6⟩, ⟨1, 0, mesh.nIndices + 42⟩,
      ⟨2, 0, mesh.nIndices + 79⟩] }

/-- The callbacks that change the globals between two frames of the render
loop: a cursor move, a scroll, or the keyboard poll at the top of a frame. -/
inductive Event (α : Type) where
  | mouse (xpos ypos : α)
  | scroll (xoffset yoffset : α)
  | input (keys : Keys)

/-- The state after one event. -/
def applyEvent (m : CMath α) (st : AppState α) : Event α → AppState α
  | .mouse xpos ypos => mouse_callback m xpos ypos st
  | .scroll xoffset yoffset => UMouseScrollCallback xoffset yoffset st
  | .input keys => UProcessInput m keys st

/-- The state after a sequence of events, oldest first. -/
def runEvents (m : CMath α) (events : List (Event α)) (st : AppState α) : AppState α :=
  events.foldl (applyEvent m) st

end Render

/-- The `(first, count)` range, in vertices, that each shape occupies in the
buffer built by `UCreateMesh`: table top, book, cube. -/
def shapeRanges : List (Nat × Nat) :=
  let n := UCreateMesh.floatsPerStride
  [(0, tabletopVerts.length / n),
   (tabletopVerts.length / n, bookVerts.length / n),
   ((tabletopVerts.length + bookVerts.length) / n, cubeVerts.length / n)]

/-- The keyboard with only the right arrow pressed. -/
def Keys.onlyRight : Keys := { Keys.none with right := true }

/-- The keyboard with only `P` pressed. -/
def Keys.onlyP : Keys := { Keys.none with p := true }

/-- The keyboard with only `W` pressed. -/
def Keys.onlyW : Keys := { Keys.none with w := true }

/-! ## Projection toggle -/

section Toggle

variable {α : Type} [LinearOrderedField α]

theorem UProcessInput_perspective (m : CMath α) (keys : Keys) (st : AppState α) :
    (UProcessInput m keys st).perspective =
      if keys.p = true ∧ st.lastFrameCheck = false then !st.perspective
      else st.perspective := by
  simp only [UProcessInput, apply_ite AppState.perspective,
    apply_ite AppState.lastFrameCheck, ite_self]
  cases keys.p <;> cases st.lastFrameCheck <;> simp

theorem UProcessInput_lastFrameCheck (m : CMath α) (keys : Keys) (st : AppState α) :
    (UProcessInput m keys st).lastFrameCheck =
      if keys.p = true then !st.lastFrameCheck else st.lastFrameCheck := by
  simp only [UProcessInput, apply_ite AppState.lastFrameCheck, ite_self]
  cases keys.p <;> cases st.lastFrameCheck <;> simp

/-- While `P` is held the flag `lastFrameCheck` alternates, so the projection
flips on every other frame: after `2 * k` held frames it has flipped `k` times. -/
theorem runFrames_hold_even (m : CMath α) (keys : Keys) (hp : keys.p = true) (k : Nat)
    (st : AppState α) (h : st.lastFrameCheck = false) :
    (runFrames m keys (2 * k) st).lastFrameCheck = false ∧
      (runFrames m keys (2 * k) st).perspective = (if k % 2 = 0 then st.perspective
        else !st.perspective) := by
  induction k generalizing st with
  | zero => simp [runFrames, h]
  | succ k ih =>
    have e : 2 * (k + 1) = (2 * k + 1) + 1 := by ring
    rw [e, runFrames, runFrames]
    have h1 : (UProcessInput m keys st).lastFrameCheck = true := by
      simp [UProcessInput_lastFrameCheck, hp, h]
    have h2 : (UProcessInput m keys (UProcessInput m keys st)).lastFrameCheck = false := by
      simp [UProcessInput_lastFrameCheck, hp, h]
    have p2 : (UProcessInput m keys (UProcessInput m keys st)).perspective =
        !st.perspective := by
      simp [UProcessInput_perspective, UProcessInput_lastFrameCheck, hp, h]
    obtain ⟨ih1, ih2⟩ := ih _ h2
    refine ⟨ih1, ?_⟩
    rw [ih2, p2]
    rcases Nat.mod_two_eq_zero_or_one k with hk | hk
    · have : (k + 1) % 2 = 1 := by omega
      simp [hk, this]
    · have : (k + 1) % 2 = 0 := by omega
      simp [hk, this]

/-- C1 (the code at the failing input): with `P` held in every frame and
`lastFrameCheck` initially false, the projection mode is negated after the
first and the second frame, and the third frame negates it again, giving back
the mode the run started from; holding the key does not toggle exactly once. -/
theorem C1_hold_three_frames_toggles_twice (m : CMath α) (keys : Keys) (st : AppState α)
    (hp : keys.p = true) (h : st.lastFrameCheck = false) :
    (runFrames m keys 1 st).perspective = (!st.perspective) ∧
      (runFrames m keys 2 st).perspective = (!st.perspective) ∧
      (runFrames m keys 3 st).perspective = st.perspective := by
  simp [runFrames, UProcessInput_perspective, UProcessInput_lastFrameCheck, hp, h]

theorem C1_hold_three_frames_toggles_twice_witness :
    Keys.onlyP.p = true ∧ (startup : AppState ℝ).lastFrameCheck = false ∧
      (runFrames realMath Keys.onlyP 1 (startup : AppState ℝ)).perspective = false ∧
      (runFrames realMath Keys.onlyP 2 (startup : AppState ℝ)).perspective = false ∧
      (runFrames realMath Keys.onlyP 3 (startup : AppState ℝ)).perspective = true :=
  ⟨rfl, rfl, C1_hold_three_frames_toggles_twice realMath Keys.onlyP startup rfl rfl⟩

end Toggle

/-! ## Mouse look -/

section MouseLook

variable {α : Type} [LinearOrderedField α]

theorem mouse_callback_pitch (m : CMath α) (xpos ypos : α) (st : AppState α) :
    (mouse_callback m xpos ypos st).pitch =
      (let lastY := if st.firstMouse = true then ypos else st.lastY
       let pitch := st.pitch + (lastY - ypos) * st.sensitivity
       let pitch := if pitch > 89 then 89 else pitch
       if pitch < -89 then -89 else pitch) := by
  simp only [mouse_callback]
  cases st.firstMouse <;> simp only [apply_ite AppState.pitch] <;> simp

theorem mouse_callback_yaw (m : CMath α) (xpos ypos : α) (st : AppState α) :
    (mouse_callback m xpos ypos st).yaw =
      st.yaw + (xpos - (if st.firstMouse = true then xpos else st.lastX)) * st.sensitivity := by
  simp only [mouse_callback]
  cases st.firstMouse <;> simp only [apply_ite AppState.yaw] <;> simp

theorem mouse_callback_cameraFront (m : CMath α) (xpos ypos : α) (st : AppState α) :
    (mouse_callback m xpos ypos st).cameraFront =
      normalize m (frontDirection m (mouse_callback m xpos ypos st).yaw
        (mouse_callback m xpos ypos st).pitch) := by
  simp only [mouse_callback]

/-- C3: whatever the prior state (any yaw, pitch, cursor reference and
`firstMouse`) and whatever the cursor position, the pitch stored by
`mouse_callback` lies in `[-89, 89]`. -/
theorem C3_pitch_clamped (m : CMath α) (xpos ypos : α) (st : AppState α) :
    -89 ≤ (mouse_callback m xpos ypos st).pitch ∧
      (mouse_callback m xpos ypos st).pitch ≤ 89 := by
  rw [mouse_callback_pitch]
  dsimp only
  constructor <;> split_ifs <;> linarith

end MouseLook

section MouseLookReal

theorem dot_frontDirection (yaw pitch : ℝ) :
    Vec3.dot (frontDirection realMath yaw pitch) (frontDirection realMath yaw pitch) = 1 := by
  simp only [Vec3.dot, frontDirection, realMath]
  have hy := Real.cos_sq_add_sin_sq (radians realMath yaw)
  have hp := Real.cos_sq_add_sin_sq (radians realMath pitch)
  simp only [realMath] at hy hp
  nlinarith [hy, hp]

theorem normalize_frontDirection (yaw pitch : ℝ) :
    normalize realMath (frontDirection realMath yaw pitch) =
      frontDirection realMath yaw pitch := by
  rw [normalize, dot_frontDirection]
  simp [realMath, Vec3.smul]

theorem frontDirection_zero_zero :
    frontDirection realMath 0 0 = (⟨1, 0, 0⟩ : Vec3 ℝ) := by
  simp [frontDirection, radians, realMath]

/-- C2 (the code at the failing input): from the startup state the first
`mouse_callback` leaves yaw and pitch at `0` for every cursor position, but it
recomputes the front vector from those angles and stores `(1, 0, 0)`, which is
not the startup front vector `(0, 0, 1)`. -/
theorem C2_first_sample_turns_front (xpos ypos : ℝ) :
    (mouse_callback realMath xpos ypos startup).yaw = (startup : AppState ℝ).yaw ∧
      (mouse_callback realMath xpos ypos startup).pitch = (startup : AppState ℝ).pitch ∧
      (mouse_callback realMath xpos ypos startup).cameraFront = ⟨1, 0, 0⟩ ∧
      (mouse_callback realMath xpos ypos startup).cameraFront ≠
        (startup : AppState ℝ).cameraFront := by
  have hy : (mouse_callback realMath xpos ypos startup).yaw = 0 := by
    rw [mouse_callback_yaw]; simp [startup]
  have hp : (mouse_callback realMath xpos ypos startup).pitch = 0 := by
    rw [mouse_callback_pitch]; simp only [startup]; norm_num
  have hf : (mouse_callback realMath xpos ypos startup).cameraFront = ⟨1, 0, 0⟩ := by
    rw [mouse_callback_cameraFront, hy, hp, normalize_frontDirection,
      frontDirection_zero_zero]
  refine ⟨by rw [hy]; rfl, by rw [hp]; rfl, hf, ?_⟩
  rw [hf]
  simp [startup]

/-- C4: after every `mouse_callback`, whatever the prior state and the cursor
position, the front vector is `normalize` of the direction built from the
stored yaw and pitch, that direction is not the zero vector, and the front
vector has length exactly `1`; the startup front vector `(0, 0, 1)` has length
`1` as well. -/
theorem C4_front_unit_length (xpos ypos : ℝ) (st : AppState ℝ) :
    (mouse_callback realMath xpos ypos st).cameraFront =
        normalize realMath (frontDirection realMath
          (mouse_callback realMath xpos ypos st).yaw
          (mouse_callback realMath xpos ypos st).pitch) ∧
      frontDirection realMath (mouse_callback realMath xpos ypos st).yaw
          (mouse_callback realMath xpos ypos st).pitch ≠ ⟨0, 0, 0⟩ ∧
      length realMath (mouse_callback realMath xpos ypos st).cameraFront = 1 ∧
      length realMath (startup : AppState ℝ).cameraFront = 1 := by
  refine ⟨mouse_callback_cameraFront _ _ _ _, ?_, ?_, ?_⟩
  · intro h
    have h1 := dot_frontDirection (mouse_callback realMath xpos ypos st).yaw
      (mouse_callback realMath xpos ypos st).pitch
    rw [h] at h1
    simp [Vec3.dot] at h1
  · rw [mouse_callback_cameraFront, normalize_frontDirection, length, dot_frontDirection]
    simp [realMath]
  · simp [length, startup, Vec3.dot, realMath]

end MouseLookReal

/-! ## Scroll wheel -/

section Scroll

variable {α : Type} [LinearOrderedField α]

theorem UMouseScrollCallback_scrollSpeed (xoffset yoffset : α) (st : AppState α) :
    (UMouseScrollCallback xoffset yoffset st).scrollSpeed =
      if yoffset > 0 then st.scrollSpeed + 1 / 100
      else if st.scrollSpeed > 1 / 100 then st.scrollSpeed - 1 / 100 else st.scrollSpeed := by
  simp only [UMouseScrollCallback]
  split_ifs <;> rfl

/-- C6 (counterexample): from the scalar `0.015`, which is at least `0.01`, one
downward scroll (`yoffset = -1`) leaves `0.005`, which is below `0.01`. -/
theorem C6_counterexample :
    ((1 : ℚ) / 100 ≤ ({ (startup : AppState ℚ) with scrollSpeed := 3 / 200 }).scrollSpeed) ∧
      ((-1 : ℚ) ≤ 0) ∧
      ¬ ((UMouseScrollCallback 0 (-1)
        { (startup : AppState ℚ) with scrollSpeed := 3 / 200 }).scrollSpeed ≥ 1 / 100) := by
  rw [UMouseScrollCallback_scrollSpeed]
  norm_num

/-- C6 (amended): for every scalar `s ≥ 0.01` and every scroll event with
`yoffset ≤ 0`, the scalar after `UMouseScrollCallback` is positive, and it is
at least `0.01` exactly when `s = 0.01` or `s ≥ 0.02`. -/
theorem C6_downward_scroll (xoffset yoffset : α) (st : AppState α)
    (hs : 1 / 100 ≤ st.scrollSpeed) (hy : yoffset ≤ 0) :
    0 < (UMouseScrollCallback xoffset yoffset st).scrollSpeed ∧
      ((UMouseScrollCallback xoffset yoffset st).scrollSpeed ≥ 1 / 100 ↔
        (st.scrollSpeed = 1 / 100 ∨ 2 / 100 ≤ st.scrollSpeed)) := by
  rw [UMouseScrollCallback_scrollSpeed, if_neg (not_lt.mpr hy)]
  by_cases hgt : st.scrollSpeed > 1 / 100
  · rw [if_pos hgt]
    refine ⟨by linarith, ?_⟩
    constructor
    · intro h
      right
      linarith
    · rintro (h | h)
      · rw [h] at hgt
        exact absurd hgt (lt_irrefl _)
      · linarith
  · rw [if_neg hgt]
    have he : st.scrollSpeed = 1 / 100 := le_antisymm (not_lt.mp hgt) hs
    refine ⟨by rw [he]; norm_num, ?_⟩
    constructor
    · intro _
      exact Or.inl he
    · intro _
      exact hs

theorem C6_downward_scroll_witness :
    ((1 : ℚ) / 100 ≤ (startup : AppState ℚ).scrollSpeed) ∧ ((-1 : ℚ) ≤ 0) ∧
      (0 < (UMouseScrollCallback 0 (-1) (startup : AppState ℚ)).scrollSpeed ∧
        ((UMouseScrollCallback 0 (-1) (startup : AppState ℚ)).scrollSpeed ≥ 1 / 100 ↔
          ((startup : AppState ℚ).scrollSpeed = 1 / 100 ∨
            2 / 100 ≤ (startup : AppState ℚ).scrollSpeed))) :=
  ⟨by simp only [startup]; norm_num, by norm_num,
    C6_downward_scroll 0 (-1) startup (by simp only [startup]; norm_num) (by norm_num)⟩

end Scroll

/-! ## Camera movement -/

section Movement

variable {α : Type} [LinearOrderedField α]

/-- C10: one `UProcessInput` frame with only `W` pressed replaces `cameraPos`
by `cameraPos + (2.5 * scrollSpeed) * cameraFront` and changes nothing else
(front and up vectors, light position, speed scalar, projection mode and the
remaining globals keep their values); with `scrollSpeed = 1` and
`cameraFront = (0, 0, 1)` the position moves by exactly `(0, 0, 2.5)`. -/
theorem C10_forward_key (m : CMath α) (st : AppState α) :
    UProcessInput m Keys.onlyW st =
        { st with
          cameraPos := Vec3.add st.cameraPos
            (Vec3.smul (5 / 2 * st.scrollSpeed) st.cameraFront) } ∧
      (UProcessInput m Keys.onlyW
          { st with scrollSpeed := 1, cameraFront := ⟨0, 0, 1⟩ }).cameraPos =
        Vec3.add st.cameraPos ⟨0, 0, 5 / 2⟩ := by
  constructor
  · simp [UProcessInput, Keys.onlyW, Keys.none]
  · simp [UProcessInput, Keys.onlyW, Keys.none, Vec3.smul]

end Movement

/-! ## Vertical flip -/

section Flip

theorem swapBytes_length (image : List Byte) (index1 index2 : Nat) :
    (swapBytes image index1 index2).length = image.length := by
  simp [swapBytes]

theorem swapBytes_get (image : List Byte) (index1 index2 p : Nat)
    (h1 : index1 < image.length) (h2 : index2 < image.length) :
    (swapBytes image index1 index2)[p]? =
      if p = index2 then image[index1]? else if p = index1 then image[index2]?
      else image[p]? := by
  simp only [swapBytes, List.getElem?_set, List.length_set, List.getD_eq_getElem?_getD,
    List.getElem?_eq_getElem h1, List.getElem?_eq_getElem h2, Option.getD_some, if_pos h1,
    if_pos h2]
  by_cases e2 : p = index2
  · subst e2
    simp
  · by_cases e1 : p = index1
    · subst e1
      simp [e2, Ne.symm e2]
    · simp [e1, e2, Ne.symm e1, Ne.symm e2]

theorem flipRow_length (n index1 index2 : Nat) (image : List Byte) :
    (flipRow n index1 index2 image).length = image.length := by
  induction n generalizing index1 index2 image with
  | zero => rfl
  | succ n ih => rw [flipRow, ih, swapBytes_length]

/-- The inner loop exchanges the `n` bytes from `index1` with the `n` bytes
from `index2` when the two ranges lie inside the buffer and do not overlap. -/
theorem flipRow_get (n index1 index2 : Nat) (image : List Byte) (p : Nat)
    (h12 : index1 + n ≤ index2) (h2 : index2 + n ≤ image.length) :
    (flipRow n index1 index2 image)[p]? =
      if index1 ≤ p ∧ p < index1 + n then image[p - index1 + index2]?
      else if index2 ≤ p ∧ p < index2 + n then image[p - index2 + index1]?
      else image[p]? := by
  induction n generalizing index1 index2 image with
  | zero =>
    rw [flipRow, if_neg (by omega), if_neg (by omega)]
  | succ n ih =>
    rw [flipRow, ih (index1 + 1) (index2 + 1) _ (by omega)
      (by rw [swapBytes_length]; omega)]
    have hl1 : index1 < image.length := by omega
    have hl2 : index2 < image.length := by omega
    simp only [swapBytes_get _ _ _ _ hl1 hl2]
    by_cases c1 : index1 ≤ p ∧ p < index1 + (n + 1)
    · rw [if_pos c1]
      by_cases d1 : index1 + 1 ≤ p ∧ p < index1 + 1 + n
      · rw [if_pos d1, if_neg (by omega), if_neg (by omega)]
        congr 1
        omega
      · rw [if_neg d1, if_neg (by omega), if_neg (by omega), if_pos (by omega)]
        congr 1
        omega
    · rw [if_neg c1, if_neg (by omega)]
      by_cases c2 : index2 ≤ p ∧ p < index2 + (n + 1)
      · rw [if_pos c2]
        by_cases d2 : index2 + 1 ≤ p ∧ p < index2 + 1 + n
        · rw [if_pos d2, if_neg (by omega), if_neg (by omega)]
          congr 1
          omega
        · rw [if_neg d2, if_pos (by omega)]
          congr 1
          omega
      · rw [if_neg c2, if_neg (by omega), if_neg (by omega), if_neg (by omega)]

theorem row_offset_lt (W a b k : Nat) (hk : k < W) : a * W + k < b * W ↔ a < b := by
  have hW : 0 < W := by omega
  rw [← Nat.div_lt_iff_lt_mul hW, Nat.mul_comm a W, Nat.mul_add_div hW,
    Nat.div_eq_of_lt hk, Nat.add_zero]

theorem row_offset_le (W a b k : Nat) (hk : k < W) : b * W ≤ a * W + k ↔ b ≤ a := by
  have h := row_offset_lt W a b k hk
  constructor
  · intro h1
    by_contra h2
    exact absurd (h.mpr (by omega)) (by omega)
  · intro h1
    by_contra h2
    exact absurd (h.mp (by omega)) (by omega)

/-- One pass of the outer loop body exchanges row `j` with row `height - 1 - j`
and leaves every other row as it was. -/
theorem flipRow_rows (W height j : Nat) (image : List Byte) (hj : 2 * j + 1 < height)
    (hlen : image.length = height * W) (r k : Nat) (hk : k < W) :
    (flipRow W (j * W) ((height - 1 - j) * W) image)[r * W + k]? =
      image[(if r = j then height - 1 - j else if r = height - 1 - j then j else r) * W
        + k]? := by
  have e1 : j * W + W = (j + 1) * W := by ring
  have e2 : (height - 1 - j) * W + W = (height - 1 - j + 1) * W := by ring
  have b1 : (j + 1) * W ≤ (height - 1 - j) * W := Nat.mul_le_mul_right W (by omega)
  have b2 : (height - 1 - j + 1) * W ≤ height * W := Nat.mul_le_mul_right W (by omega)
  rw [flipRow_get W (j * W) ((height - 1 - j) * W) image (r * W + k) (by omega)
    (by omega), e1, e2]
  simp only [row_offset_le W r _ k hk, row_offset_lt W r _ k hk]
  by_cases c1 : r = j
  · subst c1
    rw [if_pos (by omega), if_pos rfl]
    congr 1
    omega
  · rw [if_neg (by omega), if_neg c1]
    by_cases c2 : r = height - 1 - j
    · rw [if_pos (by omega), if_pos c2]
      congr 1
      rw [c2]
      omega
    · rw [if_neg (by omega), if_neg c2]

theorem flipRows_length (width height channels n j : Nat) (image : List Byte) :
    (flipRows width height channels n j image).length = image.length := by
  induction n generalizing j image with
  | zero => rfl
  | succ n ih => simp only [flipRows]; rw [ih, flipRow_length]

/-- Loop invariant of the outer loop: `n` passes starting at row counter `j`
mirror the rows `j, ..., j + n - 1` and their partners
`height - j - n, ..., height - 1 - j`, and leave the rows in between alone. -/
theorem flipRows_rows (width height channels n j : Nat) (image : List Byte)
    (hn : 2 * (j + n) ≤ height) (hlen : image.length = height * (width * channels))
    (r k : Nat) (hr : r < height) (hk : k < width * channels) :
    (flipRows width height channels n j image)[r * (width * channels) + k]? =
      image[(if (j ≤ r ∧ r < j + n) ∨ (height - (j + n) ≤ r ∧ r < height - j)
        then height - 1 - r else r) * (width * channels) + k]? := by
  induction n generalizing j image with
  | zero =>
    rw [flipRows, if_neg (by omega)]
  | succ n ih =>
    simp only [flipRows]
    rw [ih (j + 1) _ (by omega) (by rw [flipRow_length]; exact hlen), Nat.mul_assoc,
      Nat.mul_assoc, flipRow_rows (width * channels) height j image (by omega) hlen _ k hk]
    have hrow : ∀ a : Nat,
        a = (if (j + 1 ≤ r ∧ r < j + 1 + n) ∨ (height - (j + 1 + n) ≤ r ∧ r < height - (j + 1))
          then height - 1 - r else r) →
        (if a = j then height - 1 - j else if a = height - 1 - j then j else a) =
          (if (j ≤ r ∧ r < j + (n + 1)) ∨ (height - (j + (n + 1)) ≤ r ∧ r < height - j)
            then height - 1 - r else r) := by
      intro a ha
      split_ifs at ha ⊢ <;> omega
    rw [hrow _ rfl]

theorem flipImageVertically_length (image : List Byte) (width height channels : Nat) :
    (flipImageVertically image width height channels).length = image.length :=
  flipRows_length width height channels (height / 2) 0 image

theorem flipImageVertically_rows (image : List Byte) (width height channels : Nat)
    (hlen : image.length = width * height * channels) (j k : Nat) (hj : j < height)
    (hk : k < width * channels) :
    (flipImageVertically image width height channels)[j * (width * channels) + k]? =
      image[(height - 1 - j) * (width * channels) + k]? := by
  have hlen2 : image.length = height * (width * channels) := by rw [hlen]; ring
  rw [flipImageVertically, flipRows_rows width height channels (height / 2) 0 image
    (by omega) hlen2 j k hj hk]
  have hrow : (if (0 ≤ j ∧ j < 0 + height / 2) ∨ (height - (0 + height / 2) ≤ j ∧ j < height - 0)
      then height - 1 - j else j) = height - 1 - j := by
    split_ifs <;> omega
  rw [hrow]

/-- C8: for a buffer of `width * height * channels` bytes, after
`flipImageVertically` the byte at row `j`, offset `k` is the original byte at
row `height - 1 - j`, offset `k`; the buffer length is unchanged; and the
middle row of an odd-height image is unchanged. -/
theorem C8_flip_reverses_rows (image : List Byte) (width height channels : Nat)
    (hlen : image.length = width * height * channels) (j k : Nat) (hj : j < height)
    (hk : k < width * channels) :
    (∃ b : Byte,
        (flipImageVertically image width height channels)[j * (width * channels) + k]? =
          some b ∧
        image[(height - 1 - j) * (width * channels) + k]? = some b) ∧
      (flipImageVertically image width height channels).length = image.length ∧
      (height % 2 = 1 →
        (flipImageVertically image width height channels)[height / 2 * (width * channels)
          + k]? = image[height / 2 * (width * channels) + k]?) := by
  have hlen2 : image.length = height * (width * channels) := by rw [hlen]; ring
  have hin : (height - 1 - j) * (width * channels) + k < image.length := by
    rw [hlen2]
    exact (row_offset_lt (width * channels) (height - 1 - j) height k hk).mpr (by omega)
  refine ⟨⟨image[(height - 1 - j) * (width * channels) + k], ?_,
    List.getElem?_eq_getElem hin⟩, flipImageVertically_length _ _ _ _, ?_⟩
  · rw [flipImageVertically_rows image width height channels hlen j k hj hk,
      List.getElem?_eq_getElem hin]
  · intro hodd
    rw [flipImageVertically_rows image width height channels hlen (height / 2) k
      (by omega) hk]
    have hmid : height - 1 - height / 2 = height / 2 := by omega
    rw [hmid]

theorem C8_flip_reverses_rows_witness :
    ([1, 2, 3, 4, 5, 6] : List Byte).length = 1 * 3 * 2 ∧ 0 < 3 ∧ 1 < 1 * 2 ∧
      ((∃ b : Byte,
          (flipImageVertically [1, 2, 3, 4, 5, 6] 1 3 2)[0 * (1 * 2) + 1]? = some b ∧
          ([1, 2, 3, 4, 5, 6] : List Byte)[(3 - 1 - 0) * (1 * 2) + 1]? = some b) ∧
        (flipImageVertically [1, 2, 3, 4, 5, 6] 1 3 2).length =
          ([1, 2, 3, 4, 5, 6] : List Byte).length ∧
        (3 % 2 = 1 →
          (flipImageVertically [1, 2, 3, 4, 5, 6] 1 3 2)[3 / 2 * (1 * 2) + 1]? =
            ([1, 2, 3, 4, 5, 6] : List Byte)[3 / 2 * (1 * 2) + 1]?)) :=
  ⟨rfl, by decide, by decide,
    C8_flip_reverses_rows [1, 2, 3, 4, 5, 6] 1 3 2 rfl 0 1 (by decide) (by decide)⟩

/-- C7: for a buffer of `width * height * channels` bytes, applying
`flipImageVertically` twice with the same dimensions gives back the original
buffer. -/
theorem C7_flip_involution (image : List Byte) (width height channels : Nat)
    (hlen : image.length = width * height * channels) :
    flipImageVertically (flipImageVertically image width height channels) width height
      channels = image := by
  have hlen2 : image.length = height * (width * channels) := by rw [hlen]; ring
  have hlen1 : (flipImageVertically image width height channels).length =
      width * height * channels := by rw [flipImageVertically_length, hlen]
  apply List.ext_getElem?
  intro p
  by_cases hp : p < image.length
  · have hW : 0 < width * channels := by
      rcases Nat.eq_zero_or_pos (width * channels) with h0 | h0
      · rw [hlen2, h0] at hp
        omega
      · exact h0
    have hsplit : ∃ r k, r < height ∧ k < width * channels ∧
        p = r * (width * channels) + k := by
      refine ⟨p / (width * channels), p % (width * channels), ?_, Nat.mod_lt _ hW, ?_⟩
      · rw [Nat.div_lt_iff_lt_mul hW, ← hlen2]
        exact hp
      · rw [Nat.mul_comm]
        exact (Nat.div_add_mod p (width * channels)).symm
    obtain ⟨r, k, hr, hk, rfl⟩ := hsplit
    rw [flipImageVertically_rows _ width height channels hlen1 _ _ hr hk,
      flipImageVertically_rows image width height channels hlen _ _ (by omega) hk]
    have hback : height - 1 - (height - 1 - r) = r := by omega
    rw [hback]
  · rw [List.getElem?_eq_none (by rw [flipImageVertically_length,
      flipImageVertically_length]; omega), List.getElem?_eq_none (by omega)]

theorem C7_flip_involution_witness :
    ([1, 2, 3, 4, 5, 6, 7, 8] : List Byte).length = 2 * 2 * 2 ∧
      flipImageVertically (flipImageVertically [1, 2, 3, 4, 5, 6, 7, 8] 2 2 2) 2 2 2 =
        [1, 2, 3, 4, 5, 6, 7, 8] :=
  ⟨rfl, C7_flip_involution [1, 2, 3, 4, 5, 6, 7, 8] 2 2 2 rfl⟩

end Flip

/-! ## Texture creation -/

section Texture

/-- With three channels the pixels go up as `RGB`, mipmaps are generated, the
image is released, `GL_TEXTURE_2D` is unbound again and the call returns `true`. -/
theorem UCreateTexture_rgb (image : DecodedImage) (fresh textureId : Nat) (gl : GLState)
    (h : image.channels = 3) :
    UCreateTexture (some image) fresh textureId gl =
      ⟨true, fresh,
        ⟨0, gl.uploads ++ [TexUpload.mk fresh .RGB image.width image.height
          (flipImageVertically image.pixels image.width image.height image.channels)],
          gl.mipmapped ++ [fresh]⟩, true⟩ := by
  simp [UCreateTexture, h]

/-- With four channels the pixels go up as `RGBA` and the call returns `true`. -/
theorem UCreateTexture_rgba (image : DecodedImage) (fresh textureId : Nat) (gl : GLState)
    (h : image.channels = 4) :
    UCreateTexture (some image) fresh textureId gl =
      ⟨true, fresh,
        ⟨0, gl.uploads ++ [TexUpload.mk fresh .RGBA image.width image.height
          (flipImageVertically image.pixels image.width image.height image.channels)],
          gl.mipmapped ++ [fresh]⟩, true⟩ := by
  simp [UCreateTexture, h]

/-- With any other channel count the call returns `false` and uploads nothing,
but the caller's handle has already been overwritten with the generated name,
which is still bound to `GL_TEXTURE_2D`, and the image is not released. -/
theorem UCreateTexture_unsupported (image : DecodedImage) (fresh textureId : Nat)
    (gl : GLState) (h3 : image.channels ≠ 3) (h4 : image.channels ≠ 4) :
    UCreateTexture (some image) fresh textureId gl =
      ⟨false, fresh, ⟨fresh, gl.uploads, gl.mipmapped⟩, false⟩ := by
  simp [UCreateTexture, h3, h4]

/-- C9 (the code at the failing input): for a decoded one-channel `1 x 1`
image, with the caller's handle `0`, nothing bound and `glGenTextures` handing
out the name `1`, `UCreateTexture` returns `false` and uploads nothing, but the
caller's handle is `1` after the call and texture `1` is left bound to
`GL_TEXTURE_2D`. -/
theorem C9_unsupported_layout_overwrites_handle :
    UCreateTexture (some ⟨[7], 1, 1, 1⟩) 1 0 ⟨0, [], []⟩ =
      ⟨false, 1, ⟨1, [], []⟩, false⟩ := by
  decide

end Texture

/-! ## Light position keys -/

section LightKeys

variable {α : Type} [LinearOrderedField α]

theorem UProcessInput_onlyRight (m : CMath α) (st : AppState α) :
    UProcessInput m Keys.onlyRight st = { st with lX := st.lX + 1 / 100 } := by
  simp [UProcessInput, Keys.onlyRight, Keys.none]

theorem runFrames_onlyRight (m : CMath α) (N : Nat) (st : AppState α) :
    runFrames m Keys.onlyRight N st = { st with lX := st.lX + (N : α) * (1 / 100) } := by
  induction N generalizing st with
  | zero => simp [runFrames]
  | succ n ih =>
    rw [runFrames, ih, UProcessInput_onlyRight]
    simp only [AppState.mk.injEq, true_and, and_true]
    push_cast
    ring

/-- C11: `N` frames of `UProcessInput` with only the right arrow held raise
`lX` by exactly `N * 0.01` and change nothing else, so `lY` and `lZ` keep
their values; ten such frames take `lX` from the startup value `0.1` to `0.2`. -/
theorem C11_light_x_key (m : CMath α) (N : Nat) (st : AppState α) :
    runFrames m Keys.onlyRight N st = { st with lX := st.lX + (N : α) * (1 / 100) } ∧
      (runFrames m Keys.onlyRight N st).lX = st.lX + (N : α) * (1 / 100) ∧
      (runFrames m Keys.onlyRight N st).lY = st.lY ∧
      (runFrames m Keys.onlyRight N st).lZ = st.lZ ∧
      (startup : AppState α).lX = 1 / 10 ∧
      (runFrames m Keys.onlyRight 10 (startup : AppState α)).lX = 2 / 10 := by
  refine ⟨runFrames_onlyRight m N st, ?_, ?_, ?_, rfl, ?_⟩
  · rw [runFrames_onlyRight]
  · rw [runFrames_onlyRight]
  · rw [runFrames_onlyRight]
  · rw [runFrames_onlyRight]
    simp only [startup]
    norm_num

end LightKeys

/-! ## Scroll wheel in `float` arithmetic -/

section ScrollFloat

/-- The constants are the correctly rounded literals: each has a significand of
the right width and lies within half a unit in the last place of the decimal
value. -/
theorem literals_correctly_rounded :
    (2 ^ 52 ≤ double_0_01 ∧ double_0_01 < 2 ^ 53 ∧
        2 * (100 * double_0_01 - 2 ^ 59) ≤ 100 ∧ 2 ^ 59 ≤ 100 * double_0_01) ∧
      (float_0_1 = 13421773 * 2 ^ 32 ∧ 2 ^ 23 ≤ 13421773 ∧ 13421773 < 2 ^ 24 ∧
        2 * (10 * 13421773 - 2 ^ 27) ≤ 10 ∧ 2 ^ 27 ≤ 10 * 13421773) ∧
      (float_0_11 = 14763950 * 2 ^ 32 ∧ 2 ^ 23 ≤ 14763950 ∧ 14763950 < 2 ^ 24 ∧
        2 * (11 * 2 ^ 27 - 100 * 14763950) ≤ 100 ∧ 100 * 14763950 ≤ 11 * 2 ^ 27) := by
  decide

/-- With `x` steps allowed the significand that is kept fits in `p` bits. -/
theorem div_two_pow_excessBits_lt (p fuel x : Nat) (hx : x ≤ fuel) :
    x / 2 ^ excessBits p fuel x < 2 ^ p := by
  induction fuel generalizing x with
  | zero =>
    have : x = 0 := by omega
    subst this
    simp [excessBits]
  | succ fuel ih =>
    rw [excessBits]
    split_ifs with hlt
    · simpa using hlt
    · have h1 : 1 ≤ 2 ^ p := Nat.one_le_two_pow
      have := ih (x / 2) (by omega)
      rw [pow_succ, Nat.mul_comm, ← Nat.div_div_eq_div_mul]
      exact this

/-- A value that already fits in `p` bits is not changed. -/
theorem roundBits_of_lt (p x : Nat) (h : x < 2 ^ p) : roundBits p x = x := by
  have h0 : excessBits p x x = 0 := by
    cases x with
    | zero => rfl
    | succ n => rw [excessBits, if_pos h]
  simp [roundBits, h0]

/-- The rounded value is within half a unit in the last place of `x`. -/
theorem roundBits_nearest (p x : Nat) :
    2 * (roundBits p x - x) ≤ 2 ^ excessBits p x x ∧
      2 * (x - roundBits p x) ≤ 2 ^ excessBits p x x := by
  simp only [roundBits]
  by_cases h0 : excessBits p x x = 0
  · simp [h0]
  · rw [if_neg h0]
    obtain ⟨s, hs⟩ : ∃ s, excessBits p x x = s + 1 := Nat.exists_eq_succ_of_ne_zero h0
    rw [hs]
    simp only [Nat.add_sub_cancel]
    have hdm := Nat.div_add_mod x (2 ^ (s + 1))
    have hr := Nat.mod_lt x (Nat.two_pow_pos (s + 1))
    have hpow : 2 ^ (s + 1) = 2 * 2 ^ s := by rw [pow_succ]; ring
    generalize x / 2 ^ (s + 1) = q at hdm ⊢
    generalize x % 2 ^ (s + 1) = r at hdm hr ⊢
    rw [hpow] at hdm hr ⊢
    generalize 2 ^ s = h at hdm hr ⊢
    split_ifs with hup
    · have hrh : h ≤ r := by rcases hup with h1 | h1 <;> omega
      have e : (q + 1) * (2 * h) = 2 * h * q + 2 * h := by ring
      rw [e]
      constructor <;> omega
    · have hrh : r ≤ h := by
        by_contra hc
        exact hup (Or.inl (by omega))
      have e : q * (2 * h) = 2 * h * q := by ring
      rw [e]
      constructor <;> omega

end ScrollFloat

/-! ## Rendering -/

section Rendering

variable {α : Type} [LinearOrderedField α]

theorem length_tabletopVerts : tabletopVerts.length = 48 := rfl

set_option maxRecDepth 4000 in
theorem length_bookVerts : bookVerts.length = 288 := rfl

set_option maxRecDepth 4000 in
theorem length_cubeVerts : cubeVerts.length = 288 := rfl

theorem vertexCount_UCreateMesh : UCreateMesh.vertexCount = 78 := by
  simp [GLMesh.vertexCount, UCreateMesh, verts, length_tabletopVerts, length_bookVerts,
    length_cubeVerts]

theorem shapeRanges_eq : shapeRanges = [(0, 6), (6, 36), (42, 36)] := by
  simp [shapeRanges, UCreateMesh, length_tabletopVerts, length_bookVerts, length_cubeVerts]

theorem URender_draws (st : AppState α) :
    (URender UCreateMesh st).draws = [⟨0, 0, 6⟩, ⟨1, 0, 42⟩, ⟨2, 0, 79⟩] := by
  simp [URender, UCreateMesh]

/-- C13 (the code at the failing input): in perspective mode `URender` calls
`glm::perspective(1, aspect, 0.1, 100)` with `aspect = 1`, the integer quotient
`800 / 600` converted to a float, and not with `800 / 600 = 4 / 3`. -/
theorem C13_aspect_is_integer_quotient (mesh : GLMesh) (st : AppState α)
    (h : st.perspective = true) :
    (URender mesh st).projection = Projection.perspective 1 1 (1 / 10) 100 ∧
      (URender mesh st).projection ≠ Projection.perspective 1 (800 / 600) (1 / 10) 100 := by
  have hq : Int.tdiv WINDOW_WIDTH WINDOW_HEIGHT = 1 := by decide
  have hp : (URender mesh st).projection = Projection.perspective 1 1 (1 / 10) 100 := by
    simp [URender, h, hq]
  refine ⟨hp, ?_⟩
  rw [hp]
  intro heq
  injection heq with _ h2 _ _
  norm_num at h2

theorem C13_aspect_is_integer_quotient_witness :
    (startup : AppState ℚ).perspective = true ∧
      (URender UCreateMesh (startup : AppState ℚ)).projection =
        Projection.perspective 1 1 (1 / 10) 100 ∧
      (URender UCreateMesh (startup : AppState ℚ)).projection ≠
        Projection.perspective 1 (800 / 600) (1 / 10) 100 :=
  ⟨rfl, C13_aspect_is_integer_quotient UCreateMesh startup rfl⟩

/-- C14 (counterexample): at startup the `(first, count)` pairs of the draw
calls issued by `URender` are not the three shape ranges
`(0, 6), (6, 36), (42, 36)`. -/
theorem C14_counterexample :
    ¬ ((URender UCreateMesh (startup : AppState ℚ)).draws.map
        (fun d => (d.first, d.count)) = [(0, 6), (6, 36), (42, 36)]) := by
  rw [URender_draws]
  decide

/-- C14 (amended): `URender` issues exactly three draw calls, for texture
units `0`, `1`, `2` in this order, and each starts at vertex `0`; the first
covers the table top `[0, 6)`, the second the table top and the book
`[0, 42)`, and the third at least all `78` vertices of the buffer, so each
call reaches the end of its shape's range `(0, 6)`, `(6, 36)`, `(42, 36)` in
the vertex stream built by `UCreateMesh`. -/
theorem C14_draw_calls (st : AppState α) :
    (URender UCreateMesh st).draws.map (fun d => d.uTexture) = [0, 1, 2] ∧
      (∀ d ∈ (URender UCreateMesh st).draws, d.first = 0) ∧
      (∃ c : Nat, (URender UCreateMesh st).draws.map (fun d => d.count) = [6, 42, c] ∧
        UCreateMesh.vertexCount ≤ c) ∧
      shapeRanges = [(0, 6), (6, 36), (42, 36)] ∧
      UCreateMesh.vertexCount = 78 := by
  rw [URender_draws]
  refine ⟨rfl, ?_, ⟨79, rfl, by rw [vertexCount_UCreateMesh]; decide⟩, shapeRanges_eq,
    vertexCount_UCreateMesh⟩
  intro d hd
  simp only [List.mem_cons, List.mem_singleton, List.not_mem_nil, or_false] at hd
  rcases hd with rfl | rfl | rfl <;> rfl

/-- C15: the vector `URender` uploads as `viewPosition` is `cameraUp`, whatever
`cameraPos` and `cameraFront` are, so it equals the eye position (which the
view matrix does use) only when `cameraPos = cameraUp`; at startup it is not. -/
theorem C15_viewPosition_is_cameraUp (mesh : GLMesh) (st : AppState α)
    (pos front : Vec3 α) :
    (URender mesh st).viewPosition = st.cameraUp ∧
      (URender mesh { st with cameraPos := pos, cameraFront := front }).viewPosition =
        (URender mesh st).viewPosition ∧
      ((URender mesh st).viewPosition = st.cameraPos ↔ st.cameraPos = st.cameraUp) ∧
      (URender mesh st).eye = st.cameraPos ∧
      (URender mesh (startup : AppState α)).viewPosition ≠
        (startup : AppState α).cameraPos := by
  have hv : ∀ s : AppState α, (URender mesh s).viewPosition = s.cameraUp := by
    intro s
    simp [URender, commaOp]
  refine ⟨hv st, by rw [hv, hv], ?_, by simp [URender], ?_⟩
  · rw [hv]
    exact eq_comm
  · rw [hv]
    simp [startup]

end Rendering

/-! ## Strafe direction -/

section Strafe

theorem UProcessInput_camera_unchanged {α : Type} [LinearOrderedField α] (m : CMath α)
    (keys : Keys) (st : AppState α) :
    (UProcessInput m keys st).cameraFront = st.cameraFront ∧
      (UProcessInput m keys st).cameraUp = st.cameraUp ∧
      (UProcessInput m keys st).pitch = st.pitch := by
  refine ⟨?_, ?_, ?_⟩
  · simp only [UProcessInput, apply_ite AppState.cameraFront, ite_self]
  · simp only [UProcessInput, apply_ite AppState.cameraUp, ite_self]
  · simp only [UProcessInput, apply_ite AppState.pitch, ite_self]

theorem UMouseScrollCallback_camera_unchanged {α : Type} [LinearOrderedField α]
    (xoffset yoffset : α) (st : AppState α) :
    (UMouseScrollCallback xoffset yoffset st).cameraFront = st.cameraFront ∧
      (UMouseScrollCallback xoffset yoffset st).cameraUp = st.cameraUp ∧
      (UMouseScrollCallback xoffset yoffset st).pitch = st.pitch := by
  simp only [UMouseScrollCallback]
  split_ifs <;> exact ⟨rfl, rfl, rfl⟩

theorem mouse_callback_cameraUp {α : Type} [LinearOrderedField α] (m : CMath α)
    (xpos ypos : α) (st : AppState α) :
    (mouse_callback m xpos ypos st).cameraUp = st.cameraUp := by
  simp only [mouse_callback, apply_ite AppState.cameraUp, ite_self]

theorem mouse_callback_pitch_bounds {α : Type} [LinearOrderedField α] (m : CMath α)
    (xpos ypos : α) (st : AppState α) :
    -89 ≤ (mouse_callback m xpos ypos st).pitch ∧
      (mouse_callback m xpos ypos st).pitch ≤ 89 := by
  rw [mouse_callback_pitch]
  dsimp only
  constructor <;> split_ifs <;> linarith

/-- Between `-89` and `89` degrees the cosine is positive. -/
theorem cos_radians_pos (pitch : ℝ) (hlo : -89 ≤ pitch) (hhi : pitch ≤ 89) :
    0 < realMath.cos (radians realMath pitch) := by
  simp only [realMath, radians]
  have hpi := Real.pi_pos
  apply Real.cos_pos_of_mem_Ioo
  constructor
  · nlinarith
  · nlinarith

/-- The facts every event preserves: `cameraUp` is `(0, 1, 0)`, the pitch is
within `[-89, 89]`, and the front vector has a horizontal component. -/
theorem applyEvent_invariant (ev : Event ℝ) (st : AppState ℝ)
    (h : st.cameraUp = ⟨0, 1, 0⟩ ∧ (-89 ≤ st.pitch ∧ st.pitch ≤ 89) ∧
      (st.cameraFront.x ≠ 0 ∨ st.cameraFront.z ≠ 0)) :
    (applyEvent realMath st ev).cameraUp = ⟨0, 1, 0⟩ ∧
      (-89 ≤ (applyEvent realMath st ev).pitch ∧ (applyEvent realMath st ev).pitch ≤ 89) ∧
      ((applyEvent realMath st ev).cameraFront.x ≠ 0 ∨
        (applyEvent realMath st ev).cameraFront.z ≠ 0) := by
  obtain ⟨hup, hpitch, hfront⟩ := h
  cases ev with
  | mouse xpos ypos =>
    simp only [applyEvent]
    have hp := mouse_callback_pitch_bounds realMath xpos ypos st
    refine ⟨by rw [mouse_callback_cameraUp, hup], hp, ?_⟩
    rw [mouse_callback_cameraFront, normalize_frontDirection]
    have hc := cos_radians_pos _ hp.1 hp.2
    have hy := Real.cos_sq_add_sin_sq (radians realMath (mouse_callback realMath xpos ypos st).yaw)
    simp only [frontDirection, realMath] at hc hy ⊢
    by_contra hcon
    push_neg at hcon
    obtain ⟨hx, hz⟩ := hcon
    have hx0 := (mul_eq_zero.mp hx).resolve_right (ne_of_gt hc)
    have hz0 := (mul_eq_zero.mp hz).resolve_right (ne_of_gt hc)
    rw [hx0, hz0] at hy
    norm_num at hy
  | scroll xoffset yoffset =>
    simp only [applyEvent]
    obtain ⟨h1, h2, h3⟩ := UMouseScrollCallback_camera_unchanged xoffset yoffset st
    rw [h1, h2, h3]
    exact ⟨hup, hpitch, hfront⟩
  | input keys =>
    simp only [applyEvent]
    obtain ⟨h1, h2, h3⟩ := UProcessInput_camera_unchanged realMath keys st
    rw [h1, h2, h3]
    exact ⟨hup, hpitch, hfront⟩

theorem runEvents_invariant (events : List (Event ℝ)) (st : AppState ℝ)
    (h : st.cameraUp = ⟨0, 1, 0⟩ ∧ (-89 ≤ st.pitch ∧ st.pitch ≤ 89) ∧
      (st.cameraFront.x ≠ 0 ∨ st.cameraFront.z ≠ 0)) :
    (runEvents realMath events st).cameraUp = ⟨0, 1, 0⟩ ∧
      (-89 ≤ (runEvents realMath events st).pitch ∧
        (runEvents realMath events st).pitch ≤ 89) ∧
      ((runEvents realMath events st).cameraFront.x ≠ 0 ∨
        (runEvents realMath events st).cameraFront.z ≠ 0) := by
  induction events generalizing st with
  | nil => simpa [runEvents] using h
  | cons ev rest ih =>
    have := ih (applyEvent realMath st ev) (applyEvent_invariant ev st h)
    simpa [runEvents] using this

/-- C16: in every state reached from startup by any sequence of
`mouse_callback`, `UMouseScrollCallback` and `UProcessInput` steps, `cameraUp`
is `(0, 1, 0)`, the pitch lies in `[-89, 89]` so its cosine is positive, and
`cross(cameraFront, cameraUp)` is not the zero vector: the length that
`normalize` divides by in the `A` and `D` branches is not zero. -/
theorem C16_strafe_direction_defined (events : List (Event ℝ)) :
    (runEvents realMath events startup).cameraUp = ⟨0, 1, 0⟩ ∧
      0 < realMath.cos (radians realMath (runEvents realMath events startup).pitch) ∧
      Vec3.cross (runEvents realMath events startup).cameraFront
          (runEvents realMath events startup).cameraUp ≠ ⟨0, 0, 0⟩ ∧
      realMath.sqrt (Vec3.dot
          (Vec3.cross (runEvents realMath events startup).cameraFront
            (runEvents realMath events startup).cameraUp)
          (Vec3.cross (runEvents realMath events startup).cameraFront
            (runEvents realMath events startup).cameraUp)) ≠ 0 := by
  have h0 : (startup : AppState ℝ).cameraUp = ⟨0, 1, 0⟩ ∧
      (-89 ≤ (startup : AppState ℝ).pitch ∧ (startup : AppState ℝ).pitch ≤ 89) ∧
      ((startup : AppState ℝ).cameraFront.x ≠ 0 ∨ (startup : AppState ℝ).cameraFront.z ≠ 0) := by
    simp only [startup]
    norm_num
  obtain ⟨hup, hpitch, hfront⟩ := runEvents_invariant events startup h0
  have hpos : 0 < Vec3.dot
      (Vec3.cross (runEvents realMath events startup).cameraFront
        (runEvents realMath events startup).cameraUp)
      (Vec3.cross (runEvents realMath events startup).cameraFront
        (runEvents realMath events startup).cameraUp) := by
    rw [hup]
    simp only [Vec3.dot, Vec3.cross]
    rcases hfront with hx | hz
    · nlinarith [sq_nonneg (runEvents realMath events startup).cameraFront.z,
        sq_pos_of_ne_zero hx]
    · nlinarith [sq_nonneg (runEvents realMath events startup).cameraFront.x,
        sq_pos_of_ne_zero hz]
  refine ⟨hup, cos_radians_pos _ hpitch.1 hpitch.2, ?_, ?_⟩
  · intro hzero
    rw [hzero] at hpos
    simp [Vec3.dot] at hpos
  · simp only [realMath]
    exact (Real.sqrt_ne_zero'.mpr hpos)

end Strafe

end OpenGLProject
